import Mathlib

/-!
# zlog: a verification development

A shallow embedding of the `zlog` logging facade (event pool, level
constructors, context hooks, option builders, the colored console encoder and
the daily-rotation timer) together with theorems about it.

Conventions of the embedding:

* Go pointers to immutable engine handles (`*zap.Logger`) are values, `none`
  being the nil pointer;
* `*Logger` receivers live in an explicit heap (`Heap`), since `AddCtxHook`
  writes through the pointer while `With` allocates;
* the shared `sync.Pool` is threaded explicitly as a list of parked events and
  the nondeterminism of `Get` is an explicit `pick` argument;
* the iteration order of a Go map is an explicit argument of every loop that
  ranges over one.
-/

namespace Zlog

/-! ## Dynamic values and engine fields -/

/-- Go values of type `interface{}` that reach the facade. A `float64` is kept
as its IEEE-754 bit pattern, a `time.Time` as its Unix nanoseconds, an `error`
as its message. -/
inductive Value where
  | nil
  | int (n : Int)
  | int64 (n : Int)
  | float64 (bits : Nat)
  | bool (b : Bool)
  | str (s : String)
  | time (unixNano : Int)
  | err (msg : String)
  | slice (xs : List Value)

/-- Payload of a `zapcore.Field`. -/
inductive FieldVal where
  | int64 (v : Int)
  | float64 (bits : Nat)
  | bool (b : Bool)
  | string (s : String)
  | time (unixNano : Int)
  | error (msg : String)
  | skip
  | reflect (v : Value)

/-- The engine's `zapcore.Field`: a key and a typed payload. -/
structure Field where
  key : String
  val : FieldVal

/-- Constructor `zap.Int`. -/
def zapInt (key : String) (val : Int) : Field := ⟨key, .int64 val⟩

/-- Constructor `zap.Int64`. -/
def zapInt64 (key : String) (val : Int) : Field := ⟨key, .int64 val⟩

/-- Constructor `zap.Float64`. -/
def zapFloat64 (key : String) (bits : Nat) : Field := ⟨key, .float64 bits⟩

/-- Constructor `zap.Bool`. -/
def zapBool (key : String) (val : Bool) : Field := ⟨key, .bool val⟩

/-- Constructor `zap.String`. -/
def zapString (key : String) (val : String) : Field := ⟨key, .string val⟩

/-- Constructor `zap.Time`. -/
def zapTime (key : String) (unixNano : Int) : Field := ⟨key, .time unixNano⟩

/-- Constructor `zap.Error`: a nil error yields the no-op `Skip` field, any
other error a field under the fixed key `"error"`. -/
def zapError (err : Option String) : Field :=
  match err with
  | none => ⟨"", .skip⟩
  | some msg => ⟨"error", .error msg⟩

/-- Constructor `zap.Any`: picks the typed constructor matching the dynamic
type of the value and falls back to reflection. -/
def zapAny (key : String) (val : Value) : Field :=
  match val with
  | .int n => zapInt key n
  | .int64 n => zapInt64 key n
  | .float64 b => zapFloat64 key b
  | .bool b => zapBool key b
  | .str s => zapString key s
  | .time t => zapTime key t
  | .err msg => ⟨key, .error msg⟩
  | v => ⟨key, .reflect v⟩

/-- Severity levels, `zapcore.Level`; the zero value is `info`. -/
inductive Level where
  | debug | info | warn | error | fatal
  deriving DecidableEq

/-- The engine handle `*zap.Logger`, an immutable value: the fields fixed by
earlier `With` calls and the caller-skip depth. -/
structure ZapLogger where
  context : List Field
  callerSkip : Int

/-- Engine operation `(*zap.Logger).With`: clones the handle and adds the
fields to the clone. -/
def ZapLogger.With (lg : ZapLogger) (fields : List Field) : ZapLogger :=
  { lg with context := lg.context ++ fields }

/-- One call `lg.Log(level, msg, fields...)` as the engine receives it. -/
structure LogCall where
  lg : ZapLogger
  level : Level
  msg : String
  fields : List Field

/-- The fields the engine writes for a call: the handle's fixed fields, then
the fields of the call. -/
def LogCall.emitted (c : LogCall) : List Field := c.lg.context ++ c.fields

/-! ## event.go -/

/-- Initial capacity of an event's field slice. -/
def initCap : Nat := 4

/-- The struct `Event`. The capacity of the `fields` slice is not observable
through the facade and is not tracked. -/
structure Event where
  lg : Option ZapLogger
  level : Level
  fields : List Field

/-- The `New` function of `eventPool`: a zero `Event` with an empty field
slice. -/
def eventPoolNew : Event := { lg := none, level := .info, fields := [] }

/-- State shared by all log calls: the events parked in `eventPool` and the
calls the engine has received so far (oldest first). -/
structure World where
  pool : List Event
  engine : List LogCall

/-- Model of `eventPool.Get()`. `sync.Pool` may hand out any parked object
(`pick = some i`, when there is an `i`-th one) or ignore the pool and call
`New`. -/
def eventPoolGet (pool : List Event) (pick : Option Nat) : Event × List Event :=
  match pick with
  | none => (eventPoolNew, pool)
  | some i =>
    match pool.get? i with
    | some e => (e, pool.eraseIdx i)
    | none => (eventPoolNew, pool)

/-- Model of `eventPool.Put`. -/
def eventPoolPut (pool : List Event) (e : Event) : List Event := e :: pool

/-- Setter `(*Event).Int`. -/
def Event.Int (e : Event) (key : String) (val : ℤ) : Event :=
  { e with fields := e.fields ++ [zapInt key val] }

/-- Setter `(*Event).Int64`. -/
def Event.Int64 (e : Event) (key : String) (val : ℤ) : Event :=
  { e with fields := e.fields ++ [zapInt64 key val] }

/-- Setter `(*Event).Float64`. -/
def Event.Float64 (e : Event) (key : String) (bits : ℕ) : Event :=
  { e with fields := e.fields ++ [zapFloat64 key bits] }

/-- Setter `(*Event).Bool`. -/
def Event.Bool (e : Event) (key : String) (val : Bool) : Event :=
  { e with fields := e.fields ++ [zapBool key val] }

/-- Setter `(*Event).Str`. -/
def Event.Str (e : Event) (key : String) (val : String) : Event :=
  { e with fields := e.fields ++ [zapString key val] }

/-- Setter `(*Event).Time`. -/
def Event.Time (e : Event) (key : String) (unixNano : ℤ) : Event :=
  { e with fields := e.fields ++ [zapTime key unixNano] }

/-- Setter `(*Event).Err`. -/
def Event.Err (e : Event) (err : Option String) : Event :=
  { e with fields := e.fields ++ [zapError err] }

/-- Setter `(*Event).Any`. -/
def Event.Any (e : Event) (key : String) (val : Value) : Event :=
  { e with fields := e.fields ++ [zapAny key val] }

/-- The function `putEvent`: clears the logger, truncates the fields to length
zero and parks the event in the pool. -/
def putEvent (e : Event) (pool : List Event) : List Event :=
  eventPoolPut pool { e with lg := none, fields := e.fields.take 0 }

/-- The function `newEvent` of event.go: takes an object from the pool and
sets its logger and level. The context argument is ignored, as in the
source. -/
def newEvent (logger : Option ZapLogger) (level : Level) (pool : List Event)
    (pick : Option Nat) : Event × List Event :=
  let (event, pool) := eventPoolGet pool pick
  ({ event with lg := logger, level := level }, pool)

/-- Terminal call `(*Event).Msg`: one `Log` call on the event's logger, then
`putEvent`. Calling `Log` through a nil logger panics (`none`). -/
def Event.Msg (e : Event) (msg : String) (w : World) : Option World :=
  match e.lg with
  | none => none
  | some lg =>
    some { pool := putEvent e w.pool, engine := w.engine ++ [⟨lg, e.level, msg, e.fields⟩] }

/-- Terminal call `(*Event).Msgf`; `sprintf` stands for `fmt.Sprintf`. -/
def Event.Msgf (sprintf : String → List Value → String) (e : Event) (format : String)
    (args : List Value) (w : World) : Option World :=
  match e.lg with
  | none => none
  | some lg =>
    some { pool := putEvent e w.pool,
           engine := w.engine ++ [⟨lg, e.level, sprintf format args, e.fields⟩] }

/-- Terminal call `(*Event).Send`. -/
def Event.Send (e : Event) (w : World) : Option World :=
  match e.lg with
  | none => none
  | some lg =>
    some { pool := putEvent e w.pool, engine := w.engine ++ [⟨lg, e.level, "", e.fields⟩] }

/-! ## Time: instants, zones and the calendar resolver of package `time`

An instant is its Unix time in seconds plus a nanosecond part. A civil
(wall-clock) reading is kept as *civil seconds*: the seconds between
1970-01-01 00:00:00 and the reading on a calendar in which every day has 86400
seconds, so that the calendar date of a reading is its quotient by 86400 and
the time of day its remainder. Dates and day numbers are in bijection, which is
all `Format`, `ParseInLocation` and `AddDate` use of the calendar; the textual
round trip through the layout `time.DateOnly` is exact for years 0 to 9999.
-/

/-- A zone, `time.Location`: the offset (seconds east of UTC) in force before
the first transition and the transitions `(when, offset)` in ascending order of
`when`, each giving the offset in force from the Unix second `when` on. -/
structure Location where
  first : ℤ
  tx : List (ℤ × ℤ)

/-- Sentinel `alpha` of package `time`: the beginning of time. -/
def alpha : ℤ := -9223372036854775808

/-- Sentinel `omega` of package `time`: the end of time. -/
def omega : ℤ := 9223372036854775807

/-- Scan of the transition table: `offset` and `start` describe the period
before the remaining transitions. -/
def lookupFrom (sec : ℤ) (offset start : ℤ) : List (ℤ × ℤ) → ℤ × ℤ × ℤ
  | [] => (offset, start, omega)
  | (w, o) :: rest => if sec < w then (offset, start, w) else lookupFrom sec o w rest

/-- Method `(*Location).lookup`: the offset in force at the Unix second `sec`
and the bounds `[start, end)` of the period it belongs to. -/
def Location.lookup (l : Location) (sec : ℤ) : ℤ × ℤ × ℤ :=
  lookupFrom sec l.first alpha l.tx

/-- Offset in force at the Unix second `sec`. -/
def Location.offset (l : Location) (sec : ℤ) : ℤ := (l.lookup sec).1

/-- Function `time.Date` on a civil reading: looks the reading up as if it were
UTC, and looks again when the instant so found falls outside the period of the
first answer. Returns the Unix second. -/
def goDate (l : Location) (civil : ℤ) : ℤ :=
  let unix := civil
  let (offset, start, stop) := l.lookup unix
  if offset ≠ 0 then
    let utc := unix - offset
    let offset := if utc < start ∨ utc ≥ stop then l.offset utc else offset
    unix - offset
  else
    unix

/-- Calendar date (day number) of the Unix second `sec` read in zone `l`: what
`Format(time.DateOnly)` prints. -/
def civilDay (l : Location) (sec : ℤ) : ℤ := (sec + l.offset sec) / 86400

/-- Call `time.ParseInLocation(time.DateOnly, str, l)` on the text of the day
`day`: midnight of that date resolved by `time.Date` in `l`. -/
def parseDateOnlyInLocation (l : Location) (day : ℤ) : ℤ := goDate l (day * 86400)

/-- Method `Time.AddDate(0, 0, 1)` on an instant with whole seconds carried in
zone `l`: the civil reading of the instant, one day later, resolved by
`time.Date`. -/
def addOneDay (l : Location) (sec : ℤ) : ℤ := goDate l (sec + l.offset sec + 86400)

/-- Two's-complement wrap-around of `int64` arithmetic. -/
def wrap64 (x : ℤ) : ℤ := (x + 9223372036854775808) % 18446744073709551616 - 9223372036854775808

/-- Method `Time.UnixNano`. -/
def unixNano (sec nsec : ℤ) : ℤ := wrap64 (sec * 1000000000 + nsec)

/-- One cycle of the daily-rotation loop of `newWriter`, up to the duration
handed to `time.After`, in nanoseconds. `localZone` is the zone of the process
(`time.Now()` carries it), `tz` the `Timezone` of the option, `(sec, nsec)` the
clock reading. A nil `tz` makes `time.Date` panic (`none`). -/
def rotationCycle (localZone : Location) (tz : Option Location) (sec nsec : ℤ) : Option ℤ :=
  match tz with
  | none => none
  | some tz =>
    let nowStr := civilDay localZone sec
    let t2 := parseDateOnlyInLocation tz nowStr
    let next := addOneDay tz t2
    let after := wrap64 (wrap64 (unixNano next 0 - unixNano sec nsec) - 1)
    some after

/-! ## option.go -/

def defaultSkipLevel : ℤ := 1

def defaultMaxSize : ℤ := 20

def defaultMaxAge : ℤ := 15

/-- An `io.Writer` handed to the facade. -/
inductive Sink where
  | stdout
  | custom (id : ℕ)
  deriving DecidableEq

/-- Modelled from the spec: the field `Pretty`. The function `newEncoder` of
encoder.go reads `opt.Pretty` and the specification lists `Pretty` as the tenth
setting, but the declaration of the struct `Option` in option.go does not
have it; it is carried here with Go's zero value `false` as default. The nine
fields from `Dir` to `Writer` are the ones option.go declares. The struct is
named `LogOption` here, `Option` being taken. -/
structure LogOption where
  Dir : String
  Filename : String
  DisableConsole : Bool
  DailyRotation : Bool
  MaxSize : ℤ
  MaxAge : ℤ
  SkipLevel : ℤ
  Timezone : Option Location
  Writer : Option Sink
  Pretty : Bool

/-- Function `DefaultOption`; `loadLocation` stands for `time.LoadLocation`,
whose error is dropped (a failed load leaves the zone nil). -/
def DefaultOption (loadLocation : String → Option Location) : LogOption :=
  { Dir := "", Filename := "", DisableConsole := false, DailyRotation := false,
    MaxSize := defaultMaxSize, MaxAge := defaultMaxAge, SkipLevel := defaultSkipLevel,
    Timezone := loadLocation "Asia/Shanghai", Writer := some .stdout, Pretty := false }

def LogOption.SetDir (o : LogOption) (dir : String) : LogOption := { o with Dir := dir }

def LogOption.SetFilename (o : LogOption) (filename : String) : LogOption :=
  { o with Filename := filename }

def LogOption.SetSkipLevel (o : LogOption) (level : ℤ) : LogOption := { o with SkipLevel := level }

def LogOption.SetTimezone (o : LogOption) (tz : Option Location) : LogOption :=
  { o with Timezone := tz }

def LogOption.SetMaxSize (o : LogOption) (size : ℤ) : LogOption := { o with MaxSize := size }

def LogOption.SetMaxAge (o : LogOption) (age : ℤ) : LogOption := { o with MaxAge := age }

def LogOption.SetWriter (o : LogOption) (w : Option Sink) : LogOption := { o with Writer := w }

def LogOption.SetDailyRotation (o : LogOption) (rotation : Bool) : LogOption :=
  { o with DailyRotation := rotation }

def LogOption.SetDisableConsole (o : LogOption) (disable : Bool) : LogOption :=
  { o with DisableConsole := disable }

/-- One call of a mutator of option.go, with its argument. These nine are all
the methods `Option` has. -/
inductive Mutator where
  | SetDir (dir : String)
  | SetFilename (filename : String)
  | SetSkipLevel (level : ℤ)
  | SetTimezone (tz : Option Location)
  | SetMaxSize (size : ℤ)
  | SetMaxAge (age : ℤ)
  | SetWriter (w : Option Sink)
  | SetDailyRotation (rotation : Bool)
  | SetDisableConsole (disable : Bool)

/-- Runs one mutator call. -/
def Mutator.run (o : LogOption) : Mutator → LogOption
  | .SetDir dir => o.SetDir dir
  | .SetFilename filename => o.SetFilename filename
  | .SetSkipLevel level => o.SetSkipLevel level
  | .SetTimezone tz => o.SetTimezone tz
  | .SetMaxSize size => o.SetMaxSize size
  | .SetMaxAge age => o.SetMaxAge age
  | .SetWriter w => o.SetWriter w
  | .SetDailyRotation rotation => o.SetDailyRotation rotation
  | .SetDisableConsole disable => o.SetDisableConsole disable

/-- A builder chain `o.SetA(..).SetB(..)...`, leftmost call first. -/
def runMutators (o : LogOption) (ms : List Mutator) : LogOption := ms.foldl Mutator.run o

/-- The struct `lumberjack.Logger` as `newWriter` fills it. -/
structure LumberjackLogger where
  Filename : String
  MaxSize : ℤ
  MaxAge : ℤ

/-- One sink of the multi write syncer. -/
inductive Syncer where
  | console (w : Sink)
  | file (l : LumberjackLogger)

/-- What `newWriter` builds: the syncers of the multi write syncer in order, and
the rotating file writer and zone of the daily-rotation goroutine when one is
started. -/
structure WriterSetup where
  syncers : List Syncer
  rotation : Option (LumberjackLogger × Option Location)

/-- Function `newWriter`; `join` stands for `filepath.Join`. -/
def newWriter (join : String → String → String) (opt : LogOption) : WriterSetup :=
  let opt := if opt.Writer = none then { opt with Writer := some .stdout } else opt
  let consoleSyncer := Syncer.console (opt.Writer.getD .stdout)
  if opt.Filename = "" then
    { syncers := [consoleSyncer], rotation := none }
  else
    let opt := if opt.MaxSize < 0 then { opt with MaxSize := defaultMaxSize } else opt
    let opt := if opt.MaxAge < 0 then { opt with MaxAge := defaultMaxAge } else opt
    let lumberJackLogger : LumberjackLogger :=
      { Filename := join opt.Dir opt.Filename, MaxSize := defaultMaxSize, MaxAge := opt.MaxAge }
    let rotation := if opt.DailyRotation then some (lumberJackLogger, opt.Timezone) else none
    let fileSyncer := Syncer.file lumberJackLogger
    if opt.DisableConsole then
      { syncers := [fileSyncer], rotation := rotation }
    else
      { syncers := [consoleSyncer, fileSyncer], rotation := rotation }

/-- The rotating file writer among the syncers `newWriter` returns, if any. -/
def WriterSetup.fileWriter (w : WriterSetup) : Option LumberjackLogger :=
  w.syncers.findSome? fun s => match s with
    | .file l => some l
    | .console _ => none

/-! ## hook.go, logger.go and log.go -/

/-- A request-scoped `context.Context`, by the values it carries. -/
abbrev Context := List (String × Value)

/-- A Go map with string keys: its entries, with pairwise distinct keys. -/
structure GoMap (α : Type) where
  entries : List (String × α)
  nodup : (entries.map Prod.fst).Nodup

/-- The order in which one `for k, v := range m` visits a map: some
rearrangement of its entries, not fixed by the language. -/
structure RangeOrder (α : Type) where
  visit : GoMap α → List (String × α)
  perm : ∀ m, (visit m).Perm m.entries

/-- The order that visits the entries as they are stored. -/
def RangeOrder.stored (α : Type) : RangeOrder α := ⟨fun m => m.entries, fun _ => List.Perm.refl _⟩

/-- The type `CtxHook`. -/
abbrev CtxHook := Context → GoMap Value

/-- Function `withCtx`: the first of the variadic contexts, or nil. -/
def withCtx (contexts : List (Option Context)) : Option Context :=
  match contexts with
  | [] => none
  | c :: _ => c

/-- The struct `Logger`. The stored hook receives, besides the context, the
order in which its loop over the hook's map runs. -/
structure Logger where
  lg : ZapLogger
  opt : LogOption
  ctxHook : Option (Context → RangeOrder Value → List Field)

/-- The heap of `Logger` structs; a `*Logger` is an index into it. -/
abbrev Heap := List Logger

/-- Method `(*Logger).newEvent`: an event from the pool bound to the logger's
engine handle; with a non-nil context and a registered hook, the event's field
slice is replaced by the hook's fields. A dangling receiver panics (`none`). -/
def Logger.newEvent (h : Heap) (l : ℕ) (ctx : Option Context) (level : Level)
    (ord : RangeOrder Value) (pool : List Event) (pick : Option ℕ) :
    Option (Event × List Event) :=
  match h.get? l with
  | none => none
  | some p =>
    let (e, pool) := Zlog.newEvent (some p.lg) level pool pick
    match ctx, p.ctxHook with
    | some ctx, some hook => some ({ e with fields := hook ctx ord }, pool)
    | _, _ => some (e, pool)

def Logger.Debug (h : Heap) (l : ℕ) (ctx : List (Option Context)) (ord : RangeOrder Value)
    (pool : List Event) (pick : Option ℕ) : Option (Event × List Event) :=
  Logger.newEvent h l (withCtx ctx) .debug ord pool pick

def Logger.Info (h : Heap) (l : ℕ) (ctx : List (Option Context)) (ord : RangeOrder Value)
    (pool : List Event) (pick : Option ℕ) : Option (Event × List Event) :=
  Logger.newEvent h l (withCtx ctx) .info ord pool pick

def Logger.Warn (h : Heap) (l : ℕ) (ctx : List (Option Context)) (ord : RangeOrder Value)
    (pool : List Event) (pick : Option ℕ) : Option (Event × List Event) :=
  Logger.newEvent h l (withCtx ctx) .warn ord pool pick

def Logger.Error (h : Heap) (l : ℕ) (ctx : List (Option Context)) (ord : RangeOrder Value)
    (pool : List Event) (pick : Option ℕ) : Option (Event × List Event) :=
  Logger.newEvent h l (withCtx ctx) .error ord pool pick

def Logger.Fatal (h : Heap) (l : ℕ) (ctx : List (Option Context)) (ord : RangeOrder Value)
    (pool : List Event) (pick : Option ℕ) : Option (Event × List Event) :=
  Logger.newEvent h l (withCtx ctx) .fatal ord pool pick

/-- The level constructor of a level. -/
def Logger.atLevel (level : Level) (h : Heap) (l : ℕ) (ctx : List (Option Context))
    (ord : RangeOrder Value) (pool : List Event) (pick : Option ℕ) :
    Option (Event × List Event) :=
  match level with
  | .debug => Logger.Debug h l ctx ord pool pick
  | .info => Logger.Info h l ctx ord pool pick
  | .warn => Logger.Warn h l ctx ord pool pick
  | .error => Logger.Error h l ctx ord pool pick
  | .fatal => Logger.Fatal h l ctx ord pool pick

/-- Model of `strings.TrimRight(s, "\n")`. -/
def trimRightNewlines (s : String) : String :=
  String.mk (s.data.reverse.dropWhile (fun c => c == '\n')).reverse

/-- Method `(*Logger).Println`; `sprintln` stands for `fmt.Sprintln`. -/
def Logger.Println (sprintln : List Value → String) (h : Heap) (l : ℕ) (args : List Value)
    (pick : Option ℕ) (w : World) : Option World :=
  match Logger.newEvent h l none .info (RangeOrder.stored Value) w.pool pick with
  | none => none
  | some (e, pool) => e.Msg (trimRightNewlines (sprintln args)) { w with pool := pool }

/-- Method `(*Logger).Printf`; `sprintf` stands for `fmt.Sprintf`. The variadic
`args` is handed to `Msgf` as it is, without the spread `args...`, so `Msgf`
receives one argument: the slice. -/
def Logger.Printf (sprintf : String → List Value → String) (h : Heap) (l : ℕ)
    (format : String) (args : List Value) (pick : Option ℕ) (w : World) : Option World :=
  match Logger.newEvent h l none .info (RangeOrder.stored Value) w.pool pick with
  | none => none
  | some (e, pool) => e.Msgf sprintf format [Value.slice args] { w with pool := pool }

/-- Method `(*Logger).With`: allocates a new `Logger` around a clone of the
engine handle carrying the extra field; the result is the new pointer. -/
def Logger.With (h : Heap) (l : ℕ) (key : String) (val : Value) : Option (Heap × ℕ) :=
  match h.get? l with
  | none => none
  | some p =>
    some (h ++ [{ lg := p.lg.With [zapAny key val], opt := p.opt, ctxHook := none }], h.length)

/-- Method `(*Logger).AddCtxHook`: stores, through the receiver, a closure that
turns the hook's map into fields, one `zap.Any` per visited entry; the result
is the receiver. -/
def Logger.AddCtxHook (h : Heap) (l : ℕ) (fn : CtxHook) : Option (Heap × ℕ) :=
  match h.get? l with
  | none => none
  | some p =>
    let ctxHook := fun (ctx : Context) (ord : RangeOrder Value) =>
      let data := fn ctx
      (ord.visit data).foldl (fun fields kv => fields ++ [zapAny kv.1 kv.2]) []
    some (h.set l { p with ctxHook := some ctxHook }, l)

/-- The encoder `newLogger` installs. -/
inductive Encoder where
  | json
  | coloredConsole
  deriving DecidableEq

/-- Function `newEncoder` of encoder.go. -/
def newEncoder (opt : LogOption) : Encoder :=
  if opt.Pretty then .coloredConsole else .json

/-- Function `newLogger`: the engine handle of a fresh logger, with no fixed
field and the option's caller skip. -/
def newLogger (opt : LogOption) : ZapLogger := { context := [], callerSkip := opt.SkipLevel }

/-- Function `New`: allocates a `Logger`. -/
def New (h : Heap) (opt : LogOption) : Heap × ℕ :=
  (h ++ [{ lg := newLogger opt, opt := opt, ctxHook := none }], h.length)

/-- Package-level `Printf` of log.go on the default logger `logger`. -/
def Printf (sprintf : String → List Value → String) (h : Heap) (logger : ℕ)
    (format : String) (args : List Value) (pick : Option ℕ) (w : World) : Option World :=
  Logger.Printf sprintf h logger format args pick w

/-- Package-level `With` of log.go on the default logger `logger`. -/
def With (h : Heap) (logger : ℕ) (key : String) (val : Value) : Option (Heap × ℕ) :=
  Logger.With h logger key val

/-- Package-level `AddCtxHook` of log.go on the default logger `logger`. -/
def AddCtxHook (h : Heap) (logger : ℕ) (fn : CtxHook) : Option (Heap × ℕ) :=
  Logger.AddCtxHook h logger fn

/-! ## encoding/json, as far as `json.Unmarshal` into a `map[string]interface{}` goes -/

/-- A JSON value. A number is kept by its literal text. -/
inductive JVal where
  | null
  | bool (b : Bool)
  | num (lit : String)
  | str (s : String)
  | arr (xs : List JVal)
  | obj (members : List (String × JVal))

/-- JSON white space. -/
def isSpace (c : Char) : Bool := c == ' ' || c == '\t' || c == '\r' || c == '\n'

/-- Drops leading white space. -/
def skipSpace : List Char → List Char
  | [] => []
  | c :: cs => if isSpace c then skipSpace cs else c :: cs

/-- Value of a hexadecimal digit. -/
def hexDigit (c : Char) : Option ℕ :=
  if '0' ≤ c ∧ c ≤ '9' then some (c.toNat - '0'.toNat)
  else if 'a' ≤ c ∧ c ≤ 'f' then some (c.toNat - 'a'.toNat + 10)
  else if 'A' ≤ c ∧ c ≤ 'F' then some (c.toNat - 'A'.toNat + 10)
  else none

/-- Four hexadecimal digits, as after `\u`. -/
def hex4 : List Char → Option (ℕ × List Char)
  | a :: b :: c :: d :: rest =>
    match hexDigit a, hexDigit b, hexDigit c, hexDigit d with
    | some a, some b, some c, some d => some (((a * 16 + b) * 16 + c) * 16 + d, rest)
    | _, _, _, _ => none
  | _ => none

/-- The body of a string literal after its opening quote, decoded up to the
closing quote; `acc` holds the decoded characters in reverse. A lone surrogate
escape decodes to U+FFFD, a surrogate pair to the character it encodes. -/
def parseStringBody : ℕ → List Char → List Char → Option (String × List Char)
  | 0, _, _ => none
  | _ + 1, _, [] => none
  | fuel + 1, acc, c :: cs =>
    if c = '"' then some (String.mk acc.reverse, cs)
    else if c = '\\' then
      match cs with
      | [] => none
      | e :: rest =>
        if e = '"' then parseStringBody fuel ('"' :: acc) rest
        else if e = '\\' then parseStringBody fuel ('\\' :: acc) rest
        else if e = '/' then parseStringBody fuel ('/' :: acc) rest
        else if e = 'b' then parseStringBody fuel (Char.ofNat 8 :: acc) rest
        else if e = 'f' then parseStringBody fuel (Char.ofNat 12 :: acc) rest
        else if e = 'n' then parseStringBody fuel ('\n' :: acc) rest
        else if e = 'r' then parseStringBody fuel ('\r' :: acc) rest
        else if e = 't' then parseStringBody fuel ('\t' :: acc) rest
        else if e = 'u' then
          match hex4 rest with
          | none => none
          | some (hi, rest) =>
            if 0xD800 ≤ hi ∧ hi < 0xDC00 then
              match rest with
              | '\\' :: 'u' :: rest2 =>
                match hex4 rest2 with
                | none => none
                | some (lo, rest3) =>
                  if 0xDC00 ≤ lo ∧ lo < 0xE000 then
                    parseStringBody fuel
                      (Char.ofNat (0x10000 + (hi - 0xD800) * 1024 + (lo - 0xDC00)) :: acc) rest3
                  else parseStringBody fuel (Char.ofNat 0xFFFD :: acc) rest
              | _ => parseStringBody fuel (Char.ofNat 0xFFFD :: acc) rest
            else if 0xDC00 ≤ hi ∧ hi < 0xE000 then
              parseStringBody fuel (Char.ofNat 0xFFFD :: acc) rest
            else parseStringBody fuel (Char.ofNat hi :: acc) rest
        else none
    else if c.toNat < 0x20 then none
    else parseStringBody fuel (c :: acc) cs

/-- Splits off the longest run of decimal digits. -/
def takeDigits : List Char → List Char × List Char
  | [] => ([], [])
  | c :: cs =>
    if c.isDigit then
      let (ds, rest) := takeDigits cs
      (c :: ds, rest)
    else ([], c :: cs)

/-- A number literal: optional minus, integer part without a leading zero,
optional fraction, optional exponent. Returns the literal and the rest. -/
def parseNumber (cs : List Char) : Option (String × List Char) :=
  let (sign, cs) := match cs with
    | '-' :: rest => (['-'], rest)
    | _ => ([], cs)
  let intPart : Option (List Char × List Char) := match cs with
    | '0' :: rest => some (['0'], rest)
    | _ =>
      let (ds, rest) := takeDigits cs
      if ds.isEmpty then none else some (ds, rest)
  match intPart with
  | none => none
  | some (ip, cs) =>
    let frac : Option (List Char × List Char) := match cs with
      | '.' :: rest =>
        let (ds, rest2) := takeDigits rest
        if ds.isEmpty then none else some ('.' :: ds, rest2)
      | _ => some ([], cs)
    match frac with
    | none => none
    | some (fp, cs) =>
      let expo : Option (List Char × List Char) := match cs with
        | e :: rest =>
          if e = 'e' ∨ e = 'E' then
            let (sg, rest) := match rest with
              | '+' :: r => (['+'], r)
              | '-' :: r => (['-'], r)
              | _ => ([], rest)
            let (ds, rest2) := takeDigits rest
            if ds.isEmpty then none else some (e :: sg ++ ds, rest2)
          else some ([], cs)
        | [] => some ([], cs)
      match expo with
      | none => none
      | some (ep, cs) => some (String.mk (sign ++ ip ++ fp ++ ep), cs)

/-- Limit `maxNestingDepth` of the scanner of encoding/json: a text with more
than this many arrays and objects open at once is a syntax error. -/
def maxNestingDepth : ℕ := 10000

mutual

/-- One JSON value at the head of the input (white space already skipped);
`depth` is the number of arrays and objects open around it. -/
def parseValue : ℕ → ℕ → List Char → Option (JVal × List Char)
  | 0, _, _ => none
  | _ + 1, _, [] => none
  | fuel + 1, depth, c :: cs =>
    if c = '\x7b' then
      if depth + 1 > maxNestingDepth then none
      else
        match skipSpace cs with
        | '\x7d' :: rest => some (.obj [], rest)
        | cs => (parseMembers fuel (depth + 1) cs).map fun (ms, rest) => (.obj ms, rest)
    else if c = '[' then
      if depth + 1 > maxNestingDepth then none
      else
        match skipSpace cs with
        | ']' :: rest => some (.arr [], rest)
        | cs => (parseElements fuel (depth + 1) cs).map fun (xs, rest) => (.arr xs, rest)
    else if c = '"' then
      (parseStringBody (cs.length + 1) [] cs).map fun (s, rest) => (.str s, rest)
    else if c = 't' then
      match cs with
      | 'r' :: 'u' :: 'e' :: rest => some (.bool true, rest)
      | _ => none
    else if c = 'f' then
      match cs with
      | 'a' :: 'l' :: 's' :: 'e' :: rest => some (.bool false, rest)
      | _ => none
    else if c = 'n' then
      match cs with
      | 'u' :: 'l' :: 'l' :: rest => some (.null, rest)
      | _ => none
    else
      (parseNumber (c :: cs)).map fun (lit, rest) => (.num lit, rest)

/-- The elements of an array after `[`, up to and including `]`. -/
def parseElements : ℕ → ℕ → List Char → Option (List JVal × List Char)
  | 0, _, _ => none
  | fuel + 1, depth, cs =>
    match parseValue fuel depth cs with
    | none => none
    | some (v, rest) =>
      match skipSpace rest with
      | ',' :: rest =>
        (parseElements fuel depth (skipSpace rest)).map fun (vs, r) => (v :: vs, r)
      | ']' :: rest => some ([v], rest)
      | _ => none

/-- The members of an object after the opening brace, up to and including the
closing brace. -/
def parseMembers : ℕ → ℕ → List Char → Option (List (String × JVal) × List Char)
  | 0, _, _ => none
  | fuel + 1, depth, cs =>
    match cs with
    | '"' :: cs =>
      match parseStringBody (cs.length + 1) [] cs with
      | none => none
      | some (k, rest) =>
        match skipSpace rest with
        | ':' :: rest =>
          match parseValue fuel depth (skipSpace rest) with
          | none => none
          | some (v, rest) =>
            match skipSpace rest with
            | ',' :: rest =>
              (parseMembers fuel depth (skipSpace rest)).map fun (ms, r) => ((k, v) :: ms, r)
            | '\x7d' :: rest => some ([(k, v)], rest)
            | _ => none
        | _ => none
    | _ => none

end

/-- A whole JSON text as `checkValid` accepts it: one value between optional
white space, nested at most `maxNestingDepth` deep. Each recursive call
consumes a character, so the length of the input is fuel enough. -/
def parseJSON (data : String) : Option JVal :=
  let cs := skipSpace data.data
  match parseValue (cs.length + 1) 0 cs with
  | none => none
  | some (v, rest) => if (skipSpace rest).isEmpty then some v else none

/-- The number a run of decimal digits writes. -/
def digitsValue (ds : List Char) : ℕ := ds.foldl (fun n c => 10 * n + (c.toNat - '0'.toNat)) 0

/-- The parts of a number literal: the digits of its integer and fraction part
taken together as one number, the count of fraction digits, and the exponent. -/
def numberParts (lit : String) : ℕ × ℕ × ℤ :=
  let cs := match lit.data with
    | '-' :: rest => rest
    | cs => cs
  let (ip, cs) := takeDigits cs
  let (fp, cs) := match cs with
    | '.' :: rest => takeDigits rest
    | _ => ([], cs)
  let exponent : ℤ := match cs with
    | _ :: '-' :: rest => -((digitsValue (takeDigits rest).1 : ℕ) : ℤ)
    | _ :: '+' :: rest => ((digitsValue (takeDigits rest).1 : ℕ) : ℤ)
    | _ :: rest => ((digitsValue (takeDigits rest).1 : ℕ) : ℤ)
    | [] => 0
  (digitsValue (ip ++ fp), fp.length, exponent)

/-- Whether `strconv.ParseFloat(lit, 64)` succeeds on a JSON number literal. It
rounds to the nearest `float64`, ties to even, and fails with a range error
exactly when the result would be infinite: when the magnitude written is at
least `2^1024 - 2^970`, half a unit in the last place above the largest finite
`float64`. A magnitude too small to represent rounds to zero without error. -/
def fitsFloat64 (lit : String) : Bool :=
  let (n, fracLen, exponent) := numberParts lit
  let k : ℤ := exponent - fracLen
  let limit : ℕ := 2 ^ 1024 - 2 ^ 970
  if 0 ≤ k then decide (n * 10 ^ k.toNat < limit)
  else decide (n < limit * 10 ^ (-k).toNat)

mutual

/-- Whether every number in a value converts to a `float64`, which is what the
decoder stores for a number in an `interface{}`. -/
def JVal.numbersFit : JVal → Bool
  | .num lit => fitsFloat64 lit
  | .arr xs => elementsFit xs
  | .obj members => membersFit members
  | _ => true

/-- Whether every number in the elements of an array converts. -/
def elementsFit : List JVal → Bool
  | [] => true
  | x :: xs => x.numbersFit && elementsFit xs

/-- Whether every number in the members of an object converts. -/
def membersFit : List (String × JVal) → Bool
  | [] => true
  | (_, v) :: ms => v.numbersFit && membersFit ms

end

/-- The empty map. -/
def GoMap.empty (α : Type) : GoMap α := ⟨[], List.nodup_nil⟩

/-- The assignment `m[k] = v`. -/
def GoMap.store {α : Type} (m : GoMap α) (k : String) (v : α) : GoMap α :=
  ⟨m.entries.filter (fun e => e.1 ≠ k) ++ [(k, v)], by
    rw [List.map_append, List.nodup_append]
    refine ⟨m.nodup.sublist ((List.filter_sublist m.entries).map Prod.fst), by simp, ?_⟩
    intro a ha hb
    simp only [List.map_cons, List.map_nil, List.mem_singleton] at hb
    subst hb
    simp only [List.mem_map, List.mem_filter] at ha
    obtain ⟨e, ⟨_, he⟩, rfl⟩ := ha
    simp at he⟩

/-- The map a JSON object decodes to: members are stored in turn, so of two
members with one key the later stays. -/
def objectToMap (members : List (String × JVal)) : GoMap JVal :=
  members.foldl (fun m kv => m.store kv.1 kv.2) (GoMap.empty JVal)

/-- The two ways `json.Unmarshal` fails on a `map[string]interface{}`. -/
inductive UnmarshalError where
  | syntaxError
  | typeError
  deriving DecidableEq

/-- Call `json.Unmarshal(data, &m)` on a nil `m` of type
`map[string]interface{}`: a text that is not JSON is a syntax error; the
literal `null` leaves the map nil without error; an object fills a new map,
unless one of its numbers, at any depth and also under a key that a later
member overwrites, does not convert to a `float64`, which is reported as a type
error once decoding is over; any other value is a type error. -/
def jsonUnmarshal (data : String) : Except UnmarshalError (Option (GoMap JVal)) :=
  match parseJSON data with
  | none => .error .syntaxError
  | some .null => .ok none
  | some (.obj members) =>
    if membersFit members then .ok (some (objectToMap members)) else .error .typeError
  | some _ => .error .typeError

/-! ## encoder.go -/

def red : String := "\x1b[31m"

def reset : String := "\x1b[0m"

/-- Pieces of a character list between occurrences of `sep`; there is always at
least one piece. -/
def splitChars (sep : Char) : List Char → List (List Char)
  | [] => [[]]
  | c :: cs =>
    if c = sep then [] :: splitChars sep cs
    else
      match splitChars sep cs with
      | [] => [[c]]
      | seg :: rest => (c :: seg) :: rest

/-- Call `strings.Split(s, "\t")`. -/
def splitTabs (s : String) : List String := (splitChars '\t' s.data).map String.mk

/-- Call `strings.Join(fds, "\t")`. -/
def joinTabs (fds : List String) : String := "\t".intercalate fds

/-- One turn of the loop of `EncodeEntry` over the decoded map, on the counter
`i` and the text `result`; `n` is `len(fieldDataMap)` and `fmtV` stands for the
verb `%v` of package `fmt`. The debugging `fmt.Println` of the error branch
writes to standard output only. -/
def encodeStep (fmtV : JVal → String) (n : ℕ) (st : ℕ × String) (kv : String × JVal) :
    ℕ × String :=
  let (i, result) := st
  let (k, v) := kv
  let result :=
    if k = "error" then result ++ ("\"" ++ k ++ "\": \"" ++ red ++ fmtV v ++ reset ++ "\"")
    else result ++ ("\"" ++ k ++ "\": \"" ++ fmtV v ++ "\"")
  let result := if (i : ℤ) < (n : ℤ) - 1 then result ++ ", " else result
  (i + 1, result)

/-- Method `coloredConsoleEncoder.EncodeEntry`, from the line the embedded base
encoder produced on: the content of the returned buffer and the returned
error. `ord` is the order in which the loop visits the decoded map. -/
def EncodeEntry (fmtV : JVal → String) (ord : RangeOrder JVal) (line : String) :
    String × Option UnmarshalError :=
  let fds := splitTabs line
  if fds.length = 0 then (line, none)
  else
    let lastIdx := fds.length - 1
    let fieldData := fds.getD lastIdx ""
    match jsonUnmarshal fieldData with
    | .error _ => (line, none)
    | .ok fieldDataMap =>
      let visited : List (String × JVal) := match fieldDataMap with
        | none => []
        | some m => ord.visit m
      let len : ℕ := match fieldDataMap with
        | none => 0
        | some m => m.entries.length
      let result := (visited.foldl (encodeStep fmtV len) (0, "\x7b")).2
      let result := result ++ "\x7d\n"
      (joinTabs (fds.set lastIdx result), none)

/-- The verb `%v` on a decoded JSON string (the string itself), boolean
(`true` or `false`) and nil (`<nil>`). A number prints by the shortest-float
rules of `strconv` and a composite by those of `fmt`, which are not modelled:
on those values this function is not `%v` and yields the empty text. It serves
as the rendering in examples whose values are strings. -/
def fmtText : JVal → String
  | .str s => s
  | .bool b => if b then "true" else "false"
  | .null => "<nil>"
  | _ => ""

/-- The last of the tab-delimited segments of a line, `fds[lastIdx]`. -/
def lastSegment (line : String) : String :=
  (splitTabs line).getD ((splitTabs line).length - 1) ""

/-- The text of one entry of the colored rendering: key and value between
double quotes, the value of the key `error` between the red and the reset
escape sequences. -/
def renderEntry (fmtV : JVal → String) (kv : String × JVal) : String :=
  if kv.1 = "error" then "\"" ++ kv.1 ++ "\": \"" ++ red ++ fmtV kv.2 ++ reset ++ "\""
  else "\"" ++ kv.1 ++ "\": \"" ++ fmtV kv.2 ++ "\""

/-! ## fmt.Sprintf, for the verbs `%v`, `%d` and `%s` without flags -/

/-- Name of the dynamic type of a value, as `fmt` prints it. -/
def typeName : Value → String
  | .nil => "<nil>"
  | .int _ => "int"
  | .int64 _ => "int64"
  | .float64 _ => "float64"
  | .bool _ => "bool"
  | .str _ => "string"
  | .time _ => "time.Time"
  | .err _ => "*errors.errorString"
  | .slice _ => "[]interface \x7b\x7d"

mutual

/-- One operand under one verb. Integers take `%d` and `%v`, strings `%s` and
`%v`, booleans `%v`; a slice prints its elements under the same verb between
brackets; a verb an operand does not take prints as `%!verb(type=value)`.
Floats, times and errors are outside the modelled fragment and print as
nothing. -/
def fmtArg (verb : Char) : Value → String
  | .nil => if verb = 'v' then "<nil>" else "%!" ++ verb.toString ++ "(<nil>)"
  | .int n =>
    if verb = 'v' ∨ verb = 'd' then toString n
    else "%!" ++ verb.toString ++ "(int=" ++ toString n ++ ")"
  | .int64 n =>
    if verb = 'v' ∨ verb = 'd' then toString n
    else "%!" ++ verb.toString ++ "(int64=" ++ toString n ++ ")"
  | .bool b =>
    if verb = 'v' then toString b
    else "%!" ++ verb.toString ++ "(bool=" ++ toString b ++ ")"
  | .str s =>
    if verb = 'v' ∨ verb = 's' then s
    else "%!" ++ verb.toString ++ "(string=" ++ s ++ ")"
  | .slice xs => "[" ++ fmtElems verb xs ++ "]"
  | _ => ""

/-- The elements of a slice, separated by one space; a nil element prints as
`<nil>` under every verb. -/
def fmtElems (verb : Char) : List Value → String
  | [] => ""
  | [x] => match x with
    | .nil => "<nil>"
    | x => fmtArg verb x
  | x :: y :: rest =>
    (match x with
      | .nil => "<nil>"
      | x => fmtArg verb x) ++ " " ++ fmtElems verb (y :: rest)

end

/-- The operands left over when the format is used up, as `fmt` reports
them. -/
def fmtExtra (args : List Value) : String :=
  "%!(EXTRA " ++
    ", ".intercalate (args.map fun a => match a with
      | .nil => "<nil>"
      | a => typeName a ++ "=" ++ fmtArg 'v' a) ++ ")"

/-- The scan of the format by `fmt.Sprintf`: text is copied, `%%` prints a
percent sign, and every other `%c` consumes the next operand under the verb `c`
or reports it missing. -/
def sprintfScan : List Char → List Value → String
  | [], [] => ""
  | [], a :: args => fmtExtra (a :: args)
  | ['%'], [] => "%!(NOVERB)"
  | ['%'], a :: args => "%!(NOVERB)" ++ fmtExtra (a :: args)
  | '%' :: '%' :: rest, args => "%" ++ sprintfScan rest args
  | '%' :: verb :: rest, [] => "%!" ++ verb.toString ++ "(MISSING)" ++ sprintfScan rest []
  | '%' :: verb :: rest, a :: args => fmtArg verb a ++ sprintfScan rest args
  | c :: rest, args => c.toString ++ sprintfScan rest args

/-- Function `fmt.Sprintf` on formats that use the verbs `%v`, `%d`, `%s` and
`%%` without flags, width or precision. -/
def Sprintf (format : String) (args : List Value) : String := sprintfScan format.data args

/-! ## Call sequences -/

/-- One chained setter call on an event, with its arguments. -/
inductive Setter where
  | Int (key : String) (val : ℤ)
  | Int64 (key : String) (val : ℤ)
  | Float64 (key : String) (bits : ℕ)
  | Bool (key : String) (val : Bool)
  | Str (key : String) (val : String)
  | Time (key : String) (unixNano : ℤ)
  | Err (err : Option String)
  | Any (key : String) (val : Value)

/-- Runs one setter call. -/
def Setter.run (e : Event) : Setter → Event
  | .Int key val => e.Int key val
  | .Int64 key val => e.Int64 key val
  | .Float64 key bits => e.Float64 key bits
  | .Bool key val => e.Bool key val
  | .Str key val => e.Str key val
  | .Time key t => e.Time key t
  | .Err err => e.Err err
  | .Any key val => e.Any key val

/-- A chain of setter calls, leftmost first. -/
def runSetters (e : Event) (ss : List Setter) : Event := ss.foldl Setter.run e

/-- The engine field a setter call stands for. -/
def Setter.field : Setter → Field
  | .Int key val => zapInt key val
  | .Int64 key val => zapInt64 key val
  | .Float64 key bits => zapFloat64 key bits
  | .Bool key val => zapBool key val
  | .Str key val => zapString key val
  | .Time key t => zapTime key t
  | .Err err => zapError err
  | .Any key val => zapAny key val

/-- One terminal call on an event. -/
inductive Terminal where
  | Msg (msg : String)
  | Msgf (format : String) (args : List Value)
  | Send

/-- Runs one terminal call. -/
def Terminal.run (sprintf : String → List Value → String) (e : Event) (w : World) :
    Terminal → Option World
  | .Msg msg => e.Msg msg w
  | .Msgf format args => Event.Msgf sprintf e format args w
  | .Send => e.Send w

/-- The message a terminal call hands to the engine. -/
def Terminal.message (sprintf : String → List Value → String) : Terminal → String
  | .Msg msg => msg
  | .Msgf format args => sprintf format args
  | .Send => ""

/-- One use of the pool. `log` is a whole log call: `newEvent` with the given
logger and level, the assignment of hook fields to the event's field slice when
`preset` is given (as `(*Logger).newEvent` does), the chained setters, and the
terminal call that releases the event. `drop` is the pool discarding its
`i`-th parked object, which `sync.Pool` may do at any time. -/
inductive PoolOp where
  | log (pick : Option ℕ) (logger : ZapLogger) (level : Level) (preset : Option (List Field))
      (setters : List Setter) (terminal : Terminal)
  | drop (i : ℕ)

/-- Runs one use of the pool. -/
def PoolOp.run (sprintf : String → List Value → String) (w : World) : PoolOp → Option World
  | .log pick logger level preset setters terminal =>
    let (e, pool) := newEvent (some logger) level w.pool pick
    let e := match preset with
      | some fields => { e with fields := fields }
      | none => e
    terminal.run sprintf (runSetters e setters) { w with pool := pool }
  | .drop i => some { w with pool := w.pool.eraseIdx i }

/-- Runs uses of the pool one after the other. -/
def runPoolOps (sprintf : String → List Value → String) : List PoolOp → World → Option World
  | [], w => some w
  | op :: ops, w => (op.run sprintf w).bind (runPoolOps sprintf ops)

/-- The state of a starting process: nothing parked, nothing logged. -/
def World.init : World := { pool := [], engine := [] }

/-- An event as it has to be while parked: no logger, no field. -/
def Event.Parked (e : Event) : Prop := e.lg = none ∧ e.fields = []

/-- A zone table as package `time` keeps it: the transition times are `int64`
values (none before `alpha`) in ascending order. -/
def Location.WellFormed (l : Location) : Prop :=
  List.Chain (fun a b => a ≤ b) alpha (l.tx.map Prod.fst)

/-- The instant `m` (a Unix second) shows the civil reading `civil` on the wall
clock of zone `l`, and the zone has the offset of `m` also at the instant
`time.Date` tries first: `civil` less the offset in force at the UTC instant
`civil`. That instant and `m` differ by the difference of two offsets of the
zone, so the second part holds whenever no transition falls that close to `m`;
it fails when `civil` is a reading the wall clock skips. -/
def Location.Reads (l : Location) (m civil : ℤ) : Prop :=
  m + l.offset m = civil ∧ l.offset (civil - l.offset civil) = l.offset m

/-! ## Concrete inputs -/

/-- The zone UTC. -/
def utc : Location := { first := 0, tx := [] }

/-- The zone Asia/Shanghai as it has been since 1991: eight hours east of UTC,
no transition. -/
def asiaShanghai : Location := { first := 28800, tx := [] }

/-- The zone America/New_York around 2024: five hours west of UTC, four from
2024-03-10 07:00:00 UTC (the spring-forward transition) to 2024-11-03 06:00:00
UTC. -/
def americaNewYork : Location :=
  { first := -18000, tx := [(1710054000, -14400), (1730613600, -18000)] }

/-- The zone America/Santiago around 2024: three hours west of UTC in summer,
four from 2024-04-07 03:00:00 UTC, three again from 2024-09-08 04:00:00 UTC,
the transition at which the wall clock passes from 23:59:59 on 7 September
to 01:00:00 on 8 September, and four from 2025-04-06 03:00:00 UTC. -/
def americaSantiago : Location :=
  { first := -10800, tx := [(1712458800, -14400), (1725768000, -10800), (1743908400, -14400)] }

/-- A loader that knows the four zones above. -/
def loadLocation (name : String) : Option Location :=
  if name = "Asia/Shanghai" then some asiaShanghai
  else if name = "America/New_York" then some americaNewYork
  else if name = "America/Santiago" then some americaSantiago
  else if name = "UTC" then some utc
  else none

/-- A console line of the base encoder for a call with the fields `error` and
`user`. -/
def fieldsLine : String :=
  "2024-01-01T08:00:00.000+0800\tINFO\tmain.go:10\tlogin failed\t\x7b\"error\":\"boom\",\"user\":\"bob\"\x7d\n"

/-- A console line of the base encoder for the call `Info().Msg("null")`: no
field, so the message is the last segment. -/
def nullLine : String := "2024-01-01T08:00:00.000+0800\tINFO\tmain.go:10\tnull\n"

/-- A console line whose last segment is a JSON object cut short. -/
def truncatedLine : String :=
  "2024-01-01T08:00:00.000+0800\tINFO\tmain.go:10\tlogin failed\t\x7b\"error\":\"bo"

/-- A console line of the base encoder for a call without fields whose message
is the text of a JSON object holding a number beyond the range of `float64`. -/
def hugeNumberLine : String :=
  "2024-01-01T08:00:00.000+0800\tINFO\tmain.go:10\t\x7b\"k\":1e999\x7d\n"

/-- A logger as `New(DefaultOption())` makes it. -/
def defaultLogger : Logger :=
  { lg := newLogger (DefaultOption loadLocation), opt := DefaultOption loadLocation,
    ctxHook := none }

/-- The messages the engine has received, oldest first. -/
def World.messages (w : World) : List String := w.engine.map LogCall.msg

/-! ## The event pool -/

theorem eventPoolGet_mem (pool : List Event) (pick : Option ℕ) :
    ∀ e ∈ (eventPoolGet pool pick).2, e ∈ pool := by
  intro e he
  unfold eventPoolGet at he
  split at he
  · exact he
  · split at he
    · exact List.mem_of_mem_eraseIdx he
    · exact he

theorem eventPoolGet_parked (pool : List Event) (pick : Option ℕ)
    (hp : ∀ e ∈ pool, e.Parked) : (eventPoolGet pool pick).1.Parked := by
  unfold eventPoolGet
  split
  · exact ⟨rfl, rfl⟩
  · split
    · next e he => exact hp e (List.get?_mem he)
    · exact ⟨rfl, rfl⟩

theorem putEvent_parked (e : Event) (pool : List Event) (hp : ∀ x ∈ pool, x.Parked) :
    ∀ x ∈ putEvent e pool, x.Parked := by
  intro x hx
  simp only [putEvent, eventPoolPut, List.mem_cons] at hx
  rcases hx with rfl | hx
  · exact ⟨rfl, by simp⟩
  · exact hp x hx

theorem runSetters_lg (ss : List Setter) (e : Event) : (runSetters e ss).lg = e.lg := by
  induction ss generalizing e with
  | nil => rfl
  | cons s ss ih =>
    simp only [runSetters, List.foldl_cons] at ih ⊢
    rw [ih]
    cases s <;> rfl

theorem runSetters_level (ss : List Setter) (e : Event) :
    (runSetters e ss).level = e.level := by
  induction ss generalizing e with
  | nil => rfl
  | cons s ss ih =>
    simp only [runSetters, List.foldl_cons] at ih ⊢
    rw [ih]
    cases s <;> rfl

theorem runSetters_fields (ss : List Setter) (e : Event) :
    (runSetters e ss).fields = e.fields ++ ss.map Setter.field := by
  induction ss generalizing e with
  | nil => simp [runSetters]
  | cons s ss ih =>
    simp only [runSetters, List.foldl_cons] at ih ⊢
    rw [ih]
    cases s <;> simp [Setter.run, Setter.field, Event.Int, Event.Int64, Event.Float64,
      Event.Bool, Event.Str, Event.Time, Event.Err, Event.Any]

/-- A terminal call on an event that has a logger hands the engine one call,
with the event's level and fields, and parks the event. -/
theorem Terminal.run_eq (sprintf : String → List Value → String) (t : Terminal) (e : Event)
    (lg : ZapLogger) (w : World) (h : e.lg = some lg) :
    t.run sprintf e w = some (World.mk (putEvent e w.pool)
      (w.engine ++ [LogCall.mk lg e.level (t.message sprintf) e.fields])) := by
  cases t <;> simp [Terminal.run, Terminal.message, Event.Msg, Event.Msgf, Event.Send, h]

theorem PoolOp.run_parked (sprintf : String → List Value → String) (op : PoolOp) (w : World)
    (hp : ∀ e ∈ w.pool, e.Parked) :
    ∃ w2, op.run sprintf w = some w2 ∧ ∀ e ∈ w2.pool, e.Parked := by
  cases op with
  | drop i => exact ⟨_, rfl, fun e he => hp e (List.mem_of_mem_eraseIdx he)⟩
  | log pick logger level preset setters terminal =>
    simp only [PoolOp.run, newEvent]
    refine ⟨_, Terminal.run_eq sprintf terminal _ logger _ ?_, ?_⟩
    · rw [runSetters_lg]; cases preset <;> rfl
    · exact putEvent_parked _ _ (fun x hx => hp x (eventPoolGet_mem _ _ x hx))

theorem runPoolOps_parked (sprintf : String → List Value → String) (ops : List PoolOp) :
    ∀ w : World, (∀ e ∈ w.pool, e.Parked) →
      ∃ w2, runPoolOps sprintf ops w = some w2 ∧ ∀ e ∈ w2.pool, e.Parked := by
  induction ops with
  | nil => exact fun w hp => ⟨w, rfl, hp⟩
  | cons op ops ih =>
    intro w hp
    obtain ⟨w1, h1, hp1⟩ := PoolOp.run_parked sprintf op w hp
    obtain ⟨w2, h2, hp2⟩ := ih w1 hp1
    exact ⟨w2, by simp [runPoolOps, h1, h2], hp2⟩

/-- C1. However the pool has been used before (any number of log calls, each
with any fields set before its terminal call released the event, and any
discarding by the pool), the run completes, every parked event has a nil logger
and no field, and the next `newEvent logger level`, whichever parked object or
fresh allocation it receives, returns an event with an empty field sequence,
the logger passed and the level passed, leaving only such parked events. -/
theorem newEvent_after_release_is_fresh (sprintf : String → List Value → String)
    (ops : List PoolOp) :
    ∃ w, runPoolOps sprintf ops World.init = some w ∧
      (∀ e ∈ w.pool, e.lg = none ∧ e.fields = []) ∧
      ∀ (logger : Option ZapLogger) (level : Level) (pick : Option ℕ),
        (newEvent logger level w.pool pick).1.fields = [] ∧
        (newEvent logger level w.pool pick).1.lg = logger ∧
        (newEvent logger level w.pool pick).1.level = level ∧
        ∀ e ∈ (newEvent logger level w.pool pick).2, e.lg = none ∧ e.fields = [] := by
  obtain ⟨w, hw, hp⟩ := runPoolOps_parked sprintf ops World.init (by simp [World.init])
  refine ⟨w, hw, hp, fun logger level pick => ?_⟩
  refine ⟨(eventPoolGet_parked w.pool pick hp).2, rfl, rfl, fun e he => ?_⟩
  exact hp e (eventPoolGet_mem w.pool pick e he)

/-! ## Loggers, hooks and children -/

theorem heap_get (pre post : Heap) (p : Logger) :
    (pre ++ p :: post).get? pre.length = some p := by
  induction pre with
  | nil => rfl
  | cons a pre ih => simpa using ih

theorem heap_set (pre post : Heap) (p q : Logger) :
    (pre ++ p :: post).set pre.length q = pre ++ q :: post := by
  simp [List.set_append]

theorem foldl_append_single {α β : Type} (f : α → β) (xs : List α) (init : List β) :
    xs.foldl (fun acc x => acc ++ [f x]) init = init ++ xs.map f := by
  induction xs generalizing init with
  | nil => simp
  | cons x xs ih => simp [ih]

theorem zapAny_key (key : String) (val : Value) : (zapAny key val).key = key := by
  cases val <;> rfl

theorem atLevel_eq (level : Level) (h : Heap) (l : ℕ) (ctx : List (Option Context))
    (ord : RangeOrder Value) (pool : List Event) (pick : Option ℕ) :
    Logger.atLevel level h l ctx ord pool pick
      = Logger.newEvent h l (withCtx ctx) level ord pool pick := by
  cases level <;> rfl

/-- An event built through a valid `*Logger` carries that logger's engine
handle and the level asked for. -/
theorem Logger.newEvent_spec (h : Heap) (l : ℕ) (q : Logger) (ctx : Option Context)
    (level : Level) (ord : RangeOrder Value) (pool : List Event) (pick : Option ℕ)
    (hq : h.get? l = some q) :
    ∃ e pool2, Logger.newEvent h l ctx level ord pool pick = some (e, pool2) ∧
      e.lg = some q.lg ∧ e.level = level := by
  unfold Logger.newEvent
  rw [hq]
  simp only [Zlog.newEvent]
  split <;> exact ⟨_, _, rfl, rfl, rfl⟩

/-- C7. On a logger whose hook has just been set by `AddCtxHook fn`, each level
constructor called with a non-nil context returns an event bound to the
logger's engine handle whose fields are exactly the `zap.Any` fields of the
entries of `fn ctx` in the order the map was visited: one field per key and
nothing else. A terminal call after any chain of setters hands the engine those
fields followed by the setters' fields in call order, and `Send` with no setter
hands it the hook fields with the empty message. -/
theorem ctx_hook_fields_prepopulate_event (sprintf : String → List Value → String)
    (pre post : Heap) (p : Logger) (fn : CtxHook) (ctx : Context)
    (more : List (Option Context)) (level : Level) (ord : RangeOrder Value) (w : World)
    (pick : Option ℕ) (ss : List Setter) (t : Terminal) :
    ∃ h2 e pool,
      Logger.AddCtxHook (pre ++ p :: post) pre.length fn = some (h2, pre.length) ∧
      Logger.atLevel level h2 pre.length (some ctx :: more) ord w.pool pick = some (e, pool) ∧
      e.lg = some p.lg ∧ e.level = level ∧
      e.fields = (ord.visit (fn ctx)).map (fun kv => zapAny kv.1 kv.2) ∧
      (e.fields.map Field.key).Perm ((fn ctx).entries.map Prod.fst) ∧
      (e.fields.map Field.key).Nodup ∧
      t.run sprintf (runSetters e ss) (World.mk pool w.engine)
        = some (World.mk (putEvent (runSetters e ss) pool)
            (w.engine ++ [LogCall.mk p.lg level (t.message sprintf)
              (e.fields ++ ss.map Setter.field)])) ∧
      e.Send (World.mk pool w.engine)
        = some (World.mk (putEvent e pool) (w.engine ++ [LogCall.mk p.lg level "" e.fields])) := by
  have hkeys : ((ord.visit (fn ctx)).map (fun kv => zapAny kv.1 kv.2)).map Field.key
      = (ord.visit (fn ctx)).map Prod.fst := by
    rw [List.map_map]
    exact List.map_congr_left (fun kv _ => zapAny_key kv.1 kv.2)
  have hperm : ((ord.visit (fn ctx)).map Prod.fst).Perm ((fn ctx).entries.map Prod.fst) :=
    (ord.perm (fn ctx)).map Prod.fst
  refine ⟨pre ++ { p with ctxHook := some (fun ctx ord =>
      (ord.visit (fn ctx)).foldl (fun fields kv => fields ++ [zapAny kv.1 kv.2]) []) } :: post,
    Event.mk (some p.lg) level ((ord.visit (fn ctx)).map (fun kv => zapAny kv.1 kv.2)),
    (eventPoolGet w.pool pick).2, ?_, ?_, rfl, rfl, rfl, ?_, ?_, ?_, ?_⟩
  · simp only [Logger.AddCtxHook, heap_get, heap_set]
  · rw [atLevel_eq]
    simp only [Logger.newEvent, heap_get, withCtx, Zlog.newEvent, foldl_append_single,
      List.nil_append]
  · simp only [hkeys]; exact hperm
  · simp only [hkeys]; exact hperm.nodup_iff.mpr (fn ctx).nodup
  · rw [Terminal.run_eq sprintf t _ p.lg _ (by rw [runSetters_lg]), runSetters_level,
      runSetters_fields]
  · rfl

theorem get?_append_of_get? (h : Heap) (l : ℕ) (q : Logger) (more : Heap)
    (hq : h.get? l = some q) : (h ++ more).get? l = some q := by
  have hl : l < h.length := by
    by_contra hge
    rw [List.get?_eq_none.mpr (Nat.le_of_not_lt hge)] at hq
    exact Option.noConfusion hq
  rw [List.get?_eq_getElem?, List.getElem?_append_left hl, ← List.get?_eq_getElem?, hq]

/-- What a log call through a valid `*Logger` hands the engine: one call on
that logger's engine handle, whose written fields are the handle's fixed fields
followed by the event's. -/
theorem Logger.log_call (sprintf : String → List Value → String) (h : Heap) (l : ℕ)
    (q : Logger) (ctx : Option Context) (level : Level) (ord : RangeOrder Value) (w : World)
    (pick : Option ℕ) (ss : List Setter) (t : Terminal) (hq : h.get? l = some q) :
    ∃ e pool c, Logger.newEvent h l ctx level ord w.pool pick = some (e, pool) ∧
      t.run sprintf (runSetters e ss) (World.mk pool w.engine)
        = some (World.mk (putEvent (runSetters e ss) pool) (w.engine ++ [c])) ∧
      c.lg = q.lg ∧ c.fields = (runSetters e ss).fields ∧
      c.emitted = q.lg.context ++ (runSetters e ss).fields := by
  obtain ⟨e, pool, he, hlg, _⟩ := Logger.newEvent_spec h l q ctx level ord w.pool pick hq
  refine ⟨e, pool, LogCall.mk q.lg (runSetters e ss).level (t.message sprintf)
    (runSetters e ss).fields, he, ?_, rfl, rfl, rfl⟩
  rw [Terminal.run_eq sprintf t _ q.lg _ (by rw [runSetters_lg, hlg])]

/-- C8. `With` on a valid logger allocates a new `Logger` and leaves the heap it
found as it was: the parent keeps its engine handle, option and hook. Of two
children derived from one parent with `(k1, v1)` and `(k2, v2)`, each wraps the
parent's engine handle extended by its own field only, so a log call through
the first child writes the parent's fixed fields, then `(k1, v1)`, then the
event's fields; through the second child the same with `(k2, v2)`; and through
the parent, afterwards, the parent's fixed fields and the event's fields
alone. The package-level `With` is the method on the default logger. -/
theorem with_children_are_independent (sprintf : String → List Value → String)
    (pre post : Heap) (p : Logger) (k1 k2 : String) (v1 v2 : Value)
    (ctx : Option Context) (level : Level) (ord : RangeOrder Value) (w : World)
    (pick : Option ℕ) (ss : List Setter) (t : Terminal) :
    ∃ h1 h2,
      With (pre ++ p :: post) pre.length k1 v1
        = Logger.With (pre ++ p :: post) pre.length k1 v1 ∧
      Logger.With (pre ++ p :: post) pre.length k1 v1
        = some (h1, (pre ++ p :: post).length) ∧
      Logger.With h1 pre.length k2 v2 = some (h2, (pre ++ p :: post).length + 1) ∧
      h1.take (pre ++ p :: post).length = pre ++ p :: post ∧
      h2.take (pre ++ p :: post).length = pre ++ p :: post ∧
      h1.get? pre.length = some p ∧ h2.get? pre.length = some p ∧
      h2.get? (pre ++ p :: post).length
        = some (Logger.mk (p.lg.With [zapAny k1 v1]) p.opt none) ∧
      h2.get? ((pre ++ p :: post).length + 1)
        = some (Logger.mk (p.lg.With [zapAny k2 v2]) p.opt none) ∧
      (∃ e pool c, Logger.newEvent h2 (pre ++ p :: post).length ctx level ord w.pool pick
            = some (e, pool) ∧
          t.run sprintf (runSetters e ss) (World.mk pool w.engine)
            = some (World.mk (putEvent (runSetters e ss) pool) (w.engine ++ [c])) ∧
          c.emitted = p.lg.context ++ [zapAny k1 v1] ++ (runSetters e ss).fields) ∧
      (∃ e pool c, Logger.newEvent h2 ((pre ++ p :: post).length + 1) ctx level ord w.pool pick
            = some (e, pool) ∧
          t.run sprintf (runSetters e ss) (World.mk pool w.engine)
            = some (World.mk (putEvent (runSetters e ss) pool) (w.engine ++ [c])) ∧
          c.emitted = p.lg.context ++ [zapAny k2 v2] ++ (runSetters e ss).fields) ∧
      (∃ e pool c, Logger.newEvent h2 pre.length ctx level ord w.pool pick = some (e, pool) ∧
          t.run sprintf (runSetters e ss) (World.mk pool w.engine)
            = some (World.mk (putEvent (runSetters e ss) pool) (w.engine ++ [c])) ∧
          c.emitted = p.lg.context ++ (runSetters e ss).fields) := by
  have hp := heap_get pre post p
  have hp1 := get?_append_of_get? (pre ++ p :: post) pre.length p
    [Logger.mk (p.lg.With [zapAny k1 v1]) p.opt none] hp
  have hp2 := get?_append_of_get? _ pre.length p
    [Logger.mk (p.lg.With [zapAny k2 v2]) p.opt none] hp1
  have hc1 : ((pre ++ p :: post ++ [Logger.mk (p.lg.With [zapAny k1 v1]) p.opt none]) ++
      [Logger.mk (p.lg.With [zapAny k2 v2]) p.opt none]).get? (pre ++ p :: post).length
      = some (Logger.mk (p.lg.With [zapAny k1 v1]) p.opt none) := by
    rw [List.append_assoc]
    exact heap_get (pre ++ p :: post) _ _
  have hc2 : ((pre ++ p :: post ++ [Logger.mk (p.lg.With [zapAny k1 v1]) p.opt none]) ++
      [Logger.mk (p.lg.With [zapAny k2 v2]) p.opt none]).get? ((pre ++ p :: post).length + 1)
      = some (Logger.mk (p.lg.With [zapAny k2 v2]) p.opt none) := by
    have hlen : (pre ++ p :: post).length + 1
        = (pre ++ p :: post ++ [Logger.mk (p.lg.With [zapAny k1 v1]) p.opt none]).length := by
      rw [List.length_append (pre ++ p :: post)]; rfl
    rw [hlen]
    exact heap_get _ [] _
  refine ⟨pre ++ p :: post ++ [Logger.mk (p.lg.With [zapAny k1 v1]) p.opt none],
    (pre ++ p :: post ++ [Logger.mk (p.lg.With [zapAny k1 v1]) p.opt none]) ++
      [Logger.mk (p.lg.With [zapAny k2 v2]) p.opt none],
    rfl, ?_, ?_, ?_, ?_, hp1, hp2, hc1, hc2, ?_, ?_, ?_⟩
  · simp only [Logger.With, hp]
  · simp only [Logger.With, hp1]
    rw [List.length_append (pre ++ p :: post)]; rfl
  · exact List.take_left' rfl
  · rw [List.append_assoc]; exact List.take_left' rfl
  · obtain ⟨e, pool, c, he, hrun, _, _, hem⟩ :=
      Logger.log_call sprintf _ _ _ ctx level ord w pick ss t hc1
    exact ⟨e, pool, c, he, hrun, by simpa [ZapLogger.With] using hem⟩
  · obtain ⟨e, pool, c, he, hrun, _, _, hem⟩ :=
      Logger.log_call sprintf _ _ _ ctx level ord w pick ss t hc2
    exact ⟨e, pool, c, he, hrun, by simpa [ZapLogger.With] using hem⟩
  · obtain ⟨e, pool, c, he, hrun, _, _, hem⟩ :=
      Logger.log_call sprintf _ _ _ ctx level ord w pick ss t hp2
    exact ⟨e, pool, c, he, hrun, hem⟩

/-! ## Options and the writer -/

theorem Mutator.run_pretty (o : LogOption) (m : Mutator) : (m.run o).Pretty = o.Pretty := by
  cases m <;> rfl

/-- C9. No chain of the mutators `Option` has changes `Pretty`: the nine
mutators cover the nine declared settings and none covers the tenth, so an
option built from `DefaultOption` by mutators alone always selects the JSON
encoder, never the colored console one. -/
theorem mutators_never_set_pretty (ms : List Mutator) (o : LogOption)
    (load : String → Option Location) :
    (runMutators o ms).Pretty = o.Pretty ∧
    (runMutators (DefaultOption load) ms).Pretty = false ∧
    newEncoder (runMutators (DefaultOption load) ms) = Encoder.json := by
  have h : ∀ (ms : List Mutator) (o : LogOption), (runMutators o ms).Pretty = o.Pretty := by
    intro ms
    induction ms with
    | nil => intro o; rfl
    | cons m ms ih =>
      intro o
      simp only [runMutators, List.foldl_cons] at ih ⊢
      rw [ih, Mutator.run_pretty]
  refine ⟨h ms o, h ms _, ?_⟩
  simp only [newEncoder, h ms (DefaultOption load)]
  rfl

/-- C6. Whatever `MaxSize` the option carries, the rotating file writer built
by `newWriter` has the size threshold `defaultMaxSize` = 20, while its
retention follows the option's `MaxAge` (15 in place of a negative one); with
`SetMaxSize 100` and `SetMaxAge 7` the writer gets 20 and 7. -/
theorem newWriter_size_threshold_is_default (join : String → String → String)
    (opt : LogOption) :
    ((newWriter join opt).fileWriter.map LumberjackLogger.MaxSize
      = if opt.Filename = "" then none else some 20) ∧
    ((newWriter join opt).fileWriter.map LumberjackLogger.MaxAge
      = if opt.Filename = "" then none
        else some (if opt.MaxAge < 0 then 15 else opt.MaxAge)) ∧
    ((newWriter join ((((DefaultOption loadLocation).SetFilename "app.log").SetMaxSize
      100).SetMaxAge 7)).fileWriter.map (fun l => (l.MaxSize, l.MaxAge)) = some (20, 7)) := by
  refine ⟨?_, ?_, ?_⟩
  · unfold newWriter
    by_cases hf : opt.Filename = ""
    · by_cases hw : opt.Writer = none <;>
        simp [hf, hw, WriterSetup.fileWriter, List.findSome?]
    · by_cases hw : opt.Writer = none <;> by_cases hs : opt.MaxSize < 0 <;>
        by_cases ha : opt.MaxAge < 0 <;> by_cases hc : opt.DisableConsole <;>
        simp [hf, hw, hs, ha, hc, WriterSetup.fileWriter, List.findSome?, defaultMaxSize]
  · unfold newWriter
    by_cases hf : opt.Filename = ""
    · by_cases hw : opt.Writer = none <;>
        simp [hf, hw, WriterSetup.fileWriter, List.findSome?]
    · by_cases hw : opt.Writer = none <;> by_cases hs : opt.MaxSize < 0 <;>
        by_cases ha : opt.MaxAge < 0 <;> by_cases hc : opt.DisableConsole <;>
        simp [hf, hw, hs, ha, hc, WriterSetup.fileWriter, List.findSome?, defaultMaxAge]
  · simp [newWriter, DefaultOption, LogOption.SetFilename, LogOption.SetMaxSize,
      LogOption.SetMaxAge, WriterSetup.fileWriter, List.findSome?, defaultMaxSize]

/-! ## Printf -/

/-- C10. `Printf format args` hands the engine, at info level, the format
applied to ONE operand, the slice `args`, where `Info().Msgf(format, args...)`
hands it the format applied to the operands of `args`; the package-level
`Printf` is the method on the default logger. With the format `%d items` and
the argument 3 the first logs `[3] items` and the second `3 items`; with the
format `hello` and no argument the first logs the text followed by an `EXTRA`
report and the second `hello`. -/
theorem printf_formats_the_argument_slice (sprintf : String → List Value → String)
    (pre post : Heap) (p : Logger) (format : String) (args : List Value) (pick : Option ℕ)
    (w : World) :
    (Logger.Printf sprintf (pre ++ p :: post) pre.length format args pick w).map
        (fun w2 => w2.engine)
      = some (w.engine ++ [LogCall.mk p.lg Level.info (sprintf format [Value.slice args])
          (eventPoolGet w.pool pick).1.fields]) ∧
    ((Logger.Info (pre ++ p :: post) pre.length [] (RangeOrder.stored Value) w.pool pick).bind
        (fun ep => Event.Msgf sprintf ep.1 format args (World.mk ep.2 w.engine))).map
        (fun w2 => w2.engine)
      = some (w.engine ++ [LogCall.mk p.lg Level.info (sprintf format args)
          (eventPoolGet w.pool pick).1.fields]) ∧
    Printf sprintf (pre ++ p :: post) pre.length format args pick w
      = Logger.Printf sprintf (pre ++ p :: post) pre.length format args pick w ∧
    (Printf Sprintf [defaultLogger] 0 "%d items" [Value.int 3] none World.init).map
      World.messages = some ["[3] items"] ∧
    ((Logger.Info [defaultLogger] 0 [] (RangeOrder.stored Value) [] none).bind
        (fun ep => Event.Msgf Sprintf ep.1 "%d items" [Value.int 3] (World.mk ep.2 []))).map
      World.messages = some ["3 items"] ∧
    (Printf Sprintf [defaultLogger] 0 "hello" [] none World.init).map World.messages
      = some ["hello%!(EXTRA []interface \x7b\x7d=[])"] ∧
    ((Logger.Info [defaultLogger] 0 [] (RangeOrder.stored Value) [] none).bind
        (fun ep => Event.Msgf Sprintf ep.1 "hello" [] (World.mk ep.2 []))).map
      World.messages = some ["hello"] := by
  refine ⟨?_, ?_, rfl, ?_, ?_, ?_, ?_⟩
  · simp only [Logger.Printf, Logger.newEvent, heap_get, Zlog.newEvent, Event.Msgf,
      Option.map_some']
  · simp only [Logger.Info, Logger.newEvent, heap_get, Zlog.newEvent, withCtx, Event.Msgf,
      Option.some_bind, Option.map_some']
  · decide
  · decide
  · decide
  · decide

/-! ## The daily-rotation timer -/

/-- C3. With the process in UTC and the option's zone Asia/Shanghai, at
2024-01-01 20:00:00 UTC (04:00 on 2 January in Shanghai) the loop takes the
date 2024-01-01 from the process zone, resolves that date's midnight in
Shanghai and sleeps for minus four hours and one nanosecond: the target, 16:00
UTC, is the Shanghai midnight that has already passed, not the next one 20
hours ahead. Run in Shanghai itself, the same instant yields 20 hours less one
nanosecond. -/
theorem rotation_date_is_taken_in_process_zone :
    rotationCycle utc (some asiaShanghai) 1704139200 0 = some (-14400000000001) ∧
    civilDay utc 1704139200 = 19723 ∧ civilDay asiaShanghai 1704139200 = 19724 ∧
    rotationCycle asiaShanghai (some asiaShanghai) 1704139200 0 = some 71999999999999 := by
  refine ⟨?_, ?_, ?_, ?_⟩ <;> decide

theorem lookupFrom_start_le (sec : ℤ) (tx : List (ℤ × ℤ)) :
    ∀ (off start : ℤ), List.Chain (fun a b => a ≤ b) start (tx.map Prod.fst) →
      start ≤ (lookupFrom sec off start tx).2.1 := by
  induction tx with
  | nil => intro off start _; exact le_refl _
  | cons t rest ih =>
    intro off start hc
    obtain ⟨w, o⟩ := t
    simp only [List.map_cons, List.chain_cons] at hc
    unfold lookupFrom
    split
    · exact le_refl _
    · exact le_trans hc.1 (ih o w hc.2)

/-- Every instant of the period `lookup` reports has the offset it reports. -/
theorem lookupFrom_in_period (sec u : ℤ) (tx : List (ℤ × ℤ)) :
    ∀ (off start : ℤ), List.Chain (fun a b => a ≤ b) start (tx.map Prod.fst) →
      (lookupFrom sec off start tx).2.1 ≤ u → u < (lookupFrom sec off start tx).2.2 →
      (lookupFrom u off start tx).1 = (lookupFrom sec off start tx).1 := by
  induction tx with
  | nil => intro off start _ _ _; rfl
  | cons t rest ih =>
    intro off start hc
    obtain ⟨w, o⟩ := t
    simp only [List.map_cons, List.chain_cons] at hc
    have hle := lookupFrom_start_le sec rest o w hc.2
    unfold lookupFrom
    by_cases hs : sec < w
    · simp only [hs, if_true]
      intro _ hu
      simp only [hu, if_true]
    · simp only [hs, if_false]
      intro h1 h2
      have hu : ¬ u < w := by omega
      simp only [hu, if_false]
      exact ih o w hc.2 h1 h2

/-- The resolver `time.Date` finds the instant that shows a civil reading. -/
theorem goDate_of_reads (l : Location) (m civil : ℤ) (hwf : l.WellFormed)
    (h : l.Reads m civil) : goDate l civil = m := by
  obtain ⟨hm, ho⟩ := h
  have hoff : (l.lookup civil).1 = l.offset civil := rfl
  unfold goDate
  simp only [hoff]
  by_cases hz : l.offset civil = 0
  · rw [hz, sub_zero] at ho
    simp only [hz, ne_eq, not_true_eq_false, if_false]
    omega
  · simp only [ne_eq, hz, not_false_eq_true, if_true]
    split
    · omega
    · next hin =>
      have hin2 : ¬ (civil - l.offset civil < (lookupFrom civil l.first alpha l.tx).2.1 ∨
          civil - l.offset civil ≥ (lookupFrom civil l.first alpha l.tx).2.2) := hin
      have hper := lookupFrom_in_period civil (civil - l.offset civil) l.tx l.first alpha hwf
        (by omega) (by omega)
      have : l.offset (civil - l.offset civil) = l.offset civil := hper
      omega

theorem wrap64_of_small (x : ℤ) (h1 : -9223372036854775808 ≤ x)
    (h2 : x < 9223372036854775808) : wrap64 x = x := by
  unfold wrap64
  omega

/-- What one cycle computes when `time.Date` finds both midnights: in a process
whose zone is the configured zone `l`, at the clock reading `(sec, nsec)`, when
`m0` is the instant that shows 00:00:00 of the current local date and `m1` the
instant `time.Date` finds for 00:00:00 of the next local date, the sleep is the
time from now to `m1` less one nanosecond, whatever the distance between `m0`
and `m1`. Instants are within four billion seconds of 1970 (years 1844 to
2096), where `UnixNano` and the subtraction do not wrap. Nothing is said where
the wall clock skips one of the two readings, and `m1` need not lie after now
where the wall clock shows its reading twice. -/
theorem rotationCycle_of_reads (l : Location) (sec nsec m0 m1 : ℤ)
    (hwf : l.WellFormed) (hns : 0 ≤ nsec ∧ nsec < 1000000000)
    (hsec : -4000000000 ≤ sec ∧ sec ≤ 4000000000)
    (hm1 : -4000000000 ≤ m1 ∧ m1 ≤ 4000000000)
    (h0 : l.Reads m0 (civilDay l sec * 86400))
    (h1 : l.Reads m1 ((civilDay l sec + 1) * 86400)) :
    rotationCycle l (some l) sec nsec
      = some (m1 * 1000000000 - (sec * 1000000000 + nsec) - 1) := by
  have ht2 : parseDateOnlyInLocation l (civilDay l sec) = m0 := goDate_of_reads l m0 _ hwf h0
  have hnext : addOneDay l m0 = m1 := by
    unfold addOneDay
    rw [h0.1]
    have : civilDay l sec * 86400 + 86400 = (civilDay l sec + 1) * 86400 := by ring
    rw [this]
    exact goDate_of_reads l m1 _ hwf h1
  simp only [rotationCycle, ht2, hnext, unixNano]
  rw [wrap64_of_small (m1 * 1000000000 + 0) (by omega) (by omega),
    wrap64_of_small (sec * 1000000000 + nsec) (by omega) (by omega),
    wrap64_of_small (m1 * 1000000000 + 0 - (sec * 1000000000 + nsec)) (by omega) (by omega),
    wrap64_of_small _ (by omega) (by omega)]
  congr 1
  omega

/-- The lemma above at 2024-03-10 00:00:00 in New York. -/
theorem rotationCycle_new_york_spring_forward :
    rotationCycle americaNewYork (some americaNewYork) 1710046800 0
      = some (1710129600 * 1000000000 - (1710046800 * 1000000000 + 0) - 1) :=
  rotationCycle_of_reads americaNewYork 1710046800 0 1710046800 1710129600
    (by simp [Location.WellFormed, americaNewYork, alpha]) (by decide) (by decide) (by decide)
    ⟨by decide, by decide⟩ ⟨by decide, by decide⟩

/-- C2. With the process in the configured zone: in New York at 2024-03-10
00:00:00, a day on which the zone springs forward at 02:00, the sleep is 23
hours less one nanosecond, as long as the time to the next local midnight. In
Santiago the zone springs forward at midnight of 2024-09-08: the local date
changes at 04:00:00 UTC, when the wall clock passes from 23:59:59 on the 7th to
01:00:00 on the 8th. At 12:00:00 on the 7th (16:00:00 UTC), twelve hours before
that, the loop sleeps 11 hours less one nanosecond, up to 23:00:00 on the 7th;
at 23:00:00 it computes minus one nanosecond and at 23:30:00 minus half an hour
and one nanosecond, so that the timer fires at once, after the target, for a
whole hour. -/
theorem rotation_misses_skipped_midnight :
    rotationCycle americaNewYork (some americaNewYork) 1710046800 0
      = some (23 * 3600 * 1000000000 - 1) ∧
    civilDay americaSantiago 1725724800 = 19973 ∧
    (1725724800 + americaSantiago.offset 1725724800) % 86400 = 12 * 3600 ∧
    civilDay americaSantiago (1725768000 - 1) = 19973 ∧
    (1725768000 - 1 + americaSantiago.offset (1725768000 - 1)) % 86400 = 86399 ∧
    civilDay americaSantiago 1725768000 = 19974 ∧
    (1725768000 + americaSantiago.offset 1725768000) % 86400 = 3600 ∧
    (1725768000 : ℤ) - 1725724800 = 12 * 3600 ∧
    rotationCycle americaSantiago (some americaSantiago) 1725724800 0
      = some (11 * 3600 * 1000000000 - 1) ∧
    rotationCycle americaSantiago (some americaSantiago) (1725724800 + 11 * 3600) 0
      = some (-1) ∧
    rotationCycle americaSantiago (some americaSantiago) (1725724800 + 11 * 3600 + 1800) 0
      = some (-(1800 * 1000000000) - 1) := by
  refine ⟨?_, ?_, ?_, ?_, ?_, ?_, ?_, ?_, ?_, ?_, ?_⟩ <;> decide

/-- At 2024-11-03 00:00:00 in New York, a day on which the zone falls back,
the sleep is 25 hours less one nanosecond, and on the ordinary day 2024-06-01
it is 24 hours less one nanosecond. -/
theorem rotation_cycle_on_long_and_ordinary_day :
    rotationCycle americaNewYork (some americaNewYork) 1730606400 0
      = some (25 * 3600 * 1000000000 - 1) ∧
    rotationCycle americaNewYork (some americaNewYork) 1717214400 0
      = some (24 * 3600 * 1000000000 - 1) := by
  constructor <;> decide

/-! ## The colored console encoder -/

theorem splitChars_ne_nil (sep : Char) (cs : List Char) : splitChars sep cs ≠ [] := by
  induction cs with
  | nil => simp [splitChars]
  | cons c cs ih =>
    unfold splitChars
    split
    · simp
    · split <;> simp

theorem splitTabs_ne_nil (line : String) : splitTabs line ≠ [] := by
  unfold splitTabs
  intro h
  exact splitChars_ne_nil _ _ (List.map_eq_nil_iff.mp h)

theorem set_last {α : Type} (l : List α) (x : α) (h : l ≠ []) :
    l.set (l.length - 1) x = l.dropLast ++ [x] := by
  induction l with
  | nil => exact absurd rfl h
  | cons a l ih =>
    cases l with
    | nil => rfl
    | cons b l =>
      have := ih (List.cons_ne_nil b l)
      simp only [List.length_cons, Nat.add_sub_cancel] at this ⊢
      simp only [List.set_cons_succ, List.dropLast_cons₂, List.cons_append, this]

theorem intercalate_go_append (x acc sep : String) (xs : List String) :
    String.intercalate.go (x ++ acc) sep xs = x ++ String.intercalate.go acc sep xs := by
  induction xs generalizing acc with
  | nil => rfl
  | cons a xs ih =>
    simp only [String.intercalate.go]
    rw [String.append_assoc, String.append_assoc, ← String.append_assoc acc, ih]

theorem intercalate_cons_cons (sep a b : String) (xs : List String) :
    sep.intercalate (a :: b :: xs) = a ++ sep ++ sep.intercalate (b :: xs) := by
  simp only [String.intercalate, String.intercalate.go]
  rw [String.append_assoc a sep b, intercalate_go_append, String.append_assoc,
    intercalate_go_append, ← String.append_assoc]

theorem encodeStep_eq (fmtV : JVal → String) (n i : ℕ) (acc : String) (kv : String × JVal) :
    encodeStep fmtV n (i, acc) kv
      = (i + 1, if (i : ℤ) < (n : ℤ) - 1 then acc ++ renderEntry fmtV kv ++ ", "
          else acc ++ renderEntry fmtV kv) := by
  obtain ⟨k, v⟩ := kv
  simp only [encodeStep, renderEntry]
  by_cases hk : k = "error" <;> simp [hk]

/-- The loop of `EncodeEntry` over a visit that ends at the size of the map
writes the entries separated by a comma and a blank. -/
theorem encode_loop (fmtV : JVal → String) (n : ℕ) (xs : List (String × JVal)) :
    ∀ (i : ℕ) (acc : String), i + xs.length = n →
      xs.foldl (encodeStep fmtV n) (i, acc)
        = (n, acc ++ ", ".intercalate (xs.map (renderEntry fmtV))) := by
  induction xs with
  | nil =>
    intro i acc h
    simp only [List.length_nil, Nat.add_zero] at h
    simp [h, String.intercalate]
  | cons x xs ih =>
    intro i acc h
    rw [List.foldl_cons, encodeStep_eq]
    cases xs with
    | nil =>
      simp only [List.length_cons, List.length_nil] at h
      have hlt : ¬ ((i : ℤ) < (n : ℤ) - 1) := by omega
      simp only [hlt, if_false, List.foldl_nil, List.map_cons, List.map_nil]
      rw [show i + 1 = n from by omega]
      rfl
    | cons y ys =>
      simp only [List.length_cons] at h
      have hlt : (i : ℤ) < (n : ℤ) - 1 := by omega
      simp only [hlt, if_true]
      rw [ih (i + 1) _ (by simp only [List.length_cons]; omega)]
      simp only [List.map_cons]
      rw [intercalate_cons_cons, String.append_assoc, String.append_assoc,
        String.append_assoc]

theorem foldl_store_keys (ms : List (String × JVal)) :
    ∀ (m : GoMap JVal) (k : String),
      k ∈ (ms.foldl (fun m kv => m.store kv.1 kv.2) m).entries.map Prod.fst
        ↔ k ∈ m.entries.map Prod.fst ∨ k ∈ ms.map Prod.fst := by
  induction ms with
  | nil => intro m k; simp
  | cons kv ms ih =>
    intro m k
    rw [List.foldl_cons, ih]
    simp only [GoMap.store, List.map_append, List.mem_append, List.mem_map, List.mem_filter,
      List.map_cons, List.map_nil, List.mem_singleton, List.mem_cons, List.not_mem_nil,
      or_false]
    constructor
    · rintro ((⟨e, ⟨he, _⟩, rfl⟩ | h) | h)
      · exact Or.inl ⟨e, he, rfl⟩
      · exact Or.inr (Or.inl h)
      · exact Or.inr (Or.inr h)
    · rintro (⟨e, he, rfl⟩ | h | h)
      · by_cases hk : e.1 = kv.1
        · exact Or.inl (Or.inr hk)
        · exact Or.inl (Or.inl ⟨e, ⟨he, by simpa using hk⟩, rfl⟩)
      · exact Or.inl (Or.inr h)
      · exact Or.inr h

theorem foldl_store_entries (ms : List (String × JVal)) :
    ∀ (m : GoMap JVal) (e : String × JVal),
      e ∈ (ms.foldl (fun m kv => m.store kv.1 kv.2) m).entries → e ∈ m.entries ∨ e ∈ ms := by
  induction ms with
  | nil => intro m e h; exact Or.inl h
  | cons kv ms ih =>
    intro m e h
    rw [List.foldl_cons] at h
    rcases ih _ e h with h | h
    · simp only [GoMap.store, List.mem_append, List.mem_filter, List.mem_singleton] at h
      rcases h with ⟨h, _⟩ | h
      · exact Or.inl h
      · exact Or.inr (by rw [h]; exact List.mem_cons_self _ _)
    · exact Or.inr (List.mem_cons_of_mem _ h)

/-- Fail-open: a last segment that `json.Unmarshal` rejects leaves the line as
the base encoder wrote it, with a nil error. -/
theorem EncodeEntry_of_error (fmtV : JVal → String) (ord : RangeOrder JVal) (line : String)
    (err : UnmarshalError) (h : jsonUnmarshal (lastSegment line) = .error err) :
    EncodeEntry fmtV ord line = (line, none) := by
  unfold EncodeEntry
  simp only [lastSegment] at h
  simp only [h]
  split <;> rfl

/-- C5, as amended. When the last tab-delimited segment of the base line
parses as a JSON object and every number in it converts to a `float64`,
`EncodeEntry` returns, with a nil error, the line in which that segment is
replaced by an opening brace, the entries of the decoded map separated by `, `
in the order the map was visited, a closing brace and a line feed. There is one
entry per key of the object, each key once, every entry is a member of the
object, the entry of the key `error` has its value between the red and the
reset sequence and every other entry is the quoted key, a colon, a blank and
the quoted value. -/
theorem encode_entry_renders_object (fmtV : JVal → String) (ord : RangeOrder JVal)
    (line : String) (members : List (String × JVal))
    (h : parseJSON (lastSegment line) = some (JVal.obj members))
    (hfit : membersFit members = true) :
    EncodeEntry fmtV ord line
      = (joinTabs ((splitTabs line).dropLast ++
          ["\x7b" ++ ", ".intercalate ((ord.visit (objectToMap members)).map (renderEntry fmtV))
            ++ "\x7d\n"]), none) ∧
    ((ord.visit (objectToMap members)).map Prod.fst).Nodup ∧
    (∀ k, k ∈ (ord.visit (objectToMap members)).map Prod.fst ↔ k ∈ members.map Prod.fst) ∧
    (∀ kv, kv ∈ ord.visit (objectToMap members) → kv ∈ members) ∧
    (∀ v, renderEntry fmtV ("error", v)
      = "\"error\": \"" ++ "\x1b[31m" ++ fmtV v ++ "\x1b[0m" ++ "\"") ∧
    (∀ k v, k ≠ "error" → renderEntry fmtV (k, v) = "\"" ++ k ++ "\": \"" ++ fmtV v ++ "\"") := by
  have hperm := ord.perm (objectToMap members)
  refine ⟨?_, ?_, ?_, ?_, ?_, ?_⟩
  · have hu : jsonUnmarshal (lastSegment line) = .ok (some (objectToMap members)) := by
      simp only [jsonUnmarshal, h, hfit, if_true]
    unfold EncodeEntry
    simp only [lastSegment] at hu
    have hlen : (splitTabs line).length ≠ 0 := fun h0 =>
      splitTabs_ne_nil line (List.length_eq_zero.mp h0)
    simp only [hu, hlen, if_false]
    rw [encode_loop fmtV _ _ 0 _ (by rw [Nat.zero_add]; exact hperm.length_eq),
      set_last _ _ (splitTabs_ne_nil line)]
  · exact (hperm.map Prod.fst).nodup_iff.mpr (objectToMap members).nodup
  · intro k
    rw [(hperm.map Prod.fst).mem_iff]
    unfold objectToMap
    rw [foldl_store_keys]
    simp [GoMap.empty]
  · intro kv hkv
    have := foldl_store_entries members (GoMap.empty JVal) kv (hperm.mem_iff.mp hkv)
    simpa [GoMap.empty] using this
  · intro v
    simp [renderEntry, red, reset, String.append_assoc]
  · intro k v hk
    simp [renderEntry, hk]

/-- The line with the fields `error` = `boom` and `user` = `bob`: the value of
`error` comes out between the red and the reset sequence, `user` plain. -/
theorem encode_entry_renders_object_witness :
    parseJSON (lastSegment fieldsLine)
      = some (JVal.obj [("error", JVal.str "boom"), ("user", JVal.str "bob")]) ∧
    membersFit [("error", JVal.str "boom"), ("user", JVal.str "bob")] = true ∧
    EncodeEntry fmtText (RangeOrder.stored JVal) fieldsLine
      = ("2024-01-01T08:00:00.000+0800\tINFO\tmain.go:10\tlogin failed\t\x7b\"error\": \"\x1b[31mboom\x1b[0m\", \"user\": \"bob\"\x7d\n",
          none) :=
  ⟨by rfl, by rfl,
    (encode_entry_renders_object fmtText (RangeOrder.stored JVal) fieldsLine
      [("error", JVal.str "boom"), ("user", JVal.str "bob")] (by rfl) (by rfl)).1.trans
      (by decide)⟩

set_option exponentiation.threshold 2000 in
/-- The last segment of `hugeNumberLine` is a JSON object with the one key `k`,
whose value 1e999 does not convert to a `float64`: `json.Unmarshal` reports an
error and `EncodeEntry`, whatever `%v` prints and in whatever order the map is
visited, returns the line as it came, not the line with the segment replaced
by the rendering of the object. -/
theorem encode_entry_keeps_object_with_huge_number :
    parseJSON (lastSegment hugeNumberLine) = some (JVal.obj [("k", JVal.num "1e999")]) ∧
    fitsFloat64 "1e999" = false ∧
    (∀ (fmtV : JVal → String) (ord : RangeOrder JVal),
      EncodeEntry fmtV ord hugeNumberLine = (hugeNumberLine, none)) ∧
    (∀ (fmtV : JVal → String) (ord : RangeOrder JVal),
      EncodeEntry fmtV ord hugeNumberLine
        ≠ (joinTabs ((splitTabs hugeNumberLine).dropLast ++
            ["\x7b" ++ ", ".intercalate
              ((ord.visit (objectToMap [("k", JVal.num "1e999")])).map (renderEntry fmtV))
              ++ "\x7d\n"]), none)) := by
  have hkeep : ∀ (fmtV : JVal → String) (ord : RangeOrder JVal),
      EncodeEntry fmtV ord hugeNumberLine = (hugeNumberLine, none) := fun fmtV ord =>
    EncodeEntry_of_error fmtV ord hugeNumberLine .typeError (by rfl)
  refine ⟨by rfl, by decide, hkeep, fun fmtV ord heq => ?_⟩
  rw [hkeep] at heq
  have hpre : (splitTabs hugeNumberLine).dropLast
      = ["2024-01-01T08:00:00.000+0800", "INFO", "main.go:10"] := by decide
  have hvis : ∃ v, ord.visit (objectToMap [("k", JVal.num "1e999")]) = [("k", v)] := by
    have hp := ord.perm (objectToMap [("k", JVal.num "1e999")])
    have he : (objectToMap [("k", JVal.num "1e999")]).entries = [("k", JVal.num "1e999")] := by
      rfl
    rw [he] at hp
    exact ⟨_, List.perm_singleton.mp hp⟩
  obtain ⟨v, hv⟩ := hvis
  have hline := congrArg (fun x => x.1.data.get? 50) heq
  simp only [hpre, hv, List.map_cons, List.map_nil, List.cons_append, List.nil_append,
    joinTabs, String.intercalate, String.intercalate.go, renderEntry] at hline
  have hk : ¬ ("k" = "error") := by decide
  simp only [hk, if_false, ← String.append_assoc] at hline
  rw [String.data_append, String.data_append, String.data_append, List.append_assoc,
    List.append_assoc, List.get?_eq_getElem?, List.get?_eq_getElem?,
    List.getElem?_append_left (by decide)] at hline
  exact absurd hline (by decide)

/-- C4. The line of `Info().Msg("null")` ends in the segment `null`, which is
not a JSON object; `json.Unmarshal` accepts it and leaves the map nil, and
`EncodeEntry` returns the line with the message replaced by an empty pair of
braces instead of the line unchanged. A line ending in a truncated object is
returned unchanged, and both come with a nil error. -/
theorem encode_entry_rewrites_null_segment (fmtV : JVal → String) (ord : RangeOrder JVal) :
    lastSegment nullLine = "null\n" ∧
    parseJSON (lastSegment nullLine) = some JVal.null ∧
    EncodeEntry fmtV ord nullLine
      = ("2024-01-01T08:00:00.000+0800\tINFO\tmain.go:10\t\x7b\x7d\n", none) ∧
    EncodeEntry fmtV ord nullLine ≠ (nullLine, none) ∧
    EncodeEntry fmtV ord truncatedLine = (truncatedLine, none) := by
  have hs : splitTabs nullLine
      = ["2024-01-01T08:00:00.000+0800", "INFO", "main.go:10", "null\n"] := by decide
  have hu : jsonUnmarshal "null\n" = .ok none := by rfl
  have he : EncodeEntry fmtV ord nullLine
      = ("2024-01-01T08:00:00.000+0800\tINFO\tmain.go:10\t\x7b\x7d\n", none) := by
    unfold EncodeEntry
    simp only [hs, List.length_cons, List.length_nil, List.getD_cons_succ, List.getD_cons_zero,
      hu, List.foldl_nil]
    decide
  refine ⟨by decide, by rfl, he, ?_, ?_⟩
  · rw [he]; decide
  · exact EncodeEntry_of_error fmtV ord truncatedLine .syntaxError (by rfl)

end Zlog
